import Mathlib

/-!
Verification of the client-IP resolution subsystem of dd-trace-go's httpsec
instrumentation (header normalization, IP parsing and classification,
priority-based resolution, tag writing).  The implementation file is not part
of the provided sources (only its test `tags_test.go` is), so the operations
are modelled from the specification; everything is kept executable so that
theorems can be checked on the concrete inputs exercised by the tests.
-/

namespace Httpsec

/-! ## Character-list string utilities -/

/-- Lowercase one ASCII character (identity outside A-Z). -/
def lowerChar (c : Char) : Char :=
  if 65 ≤ c.toNat ∧ c.toNat ≤ 90 then Char.ofNat (c.toNat + 32) else c

/-- Lowercase a string, character by character. -/
def lowerStr (s : String) : String :=
  String.mk (s.data.map lowerChar)

/-- Split a character list on a separator character; mirrors Go's
`strings.Split` for a one-character separator (the empty input yields one
empty piece). -/
def splitChar (c : Char) : List Char → List (List Char)
  | [] => [[]]
  | x :: xs =>
    if x = c then [] :: splitChar c xs
    else
      match splitChar c xs with
      | [] => [[x]]
      | h :: t => (x :: h) :: t

/-- Drop leading and trailing whitespace, like Go's `strings.TrimSpace`. -/
def trimChars (cs : List Char) : List Char :=
  ((cs.dropWhile Char.isWhitespace).reverse.dropWhile Char.isWhitespace).reverse

/-- Characters strictly before the first occurrence of `c` (all of them when
`c` does not occur). -/
def takeUntil (c : Char) : List Char → List Char
  | [] => []
  | x :: xs => if x = c then [] else x :: takeUntil c xs

/-- Number of occurrences of a character. -/
def countChar (c : Char) (cs : List Char) : Nat :=
  (cs.filter (fun x => x = c)).length

/-- Modelled from the spec: strip an optional trailing `:port` from a literal
address candidate, bracket-aware for IPv6 literals (`[v6]:port` keeps the
bracket contents; a bare token with exactly one colon is a `v4:port` pair;
anything else is left unchanged).  The concrete `tags.go` helper is not in
the provided sources. -/
def stripPortChars : List Char → List Char
  | '[' :: rest => takeUntil ']' rest
  | cs => if countChar ':' cs = 1 then takeUntil ':' cs else cs

/-! ## IP address model and parsing

Modelled from the spec: `parse(text) → IPAddress | invalid` accepts canonical
IPv4 dotted-quad and IPv6 (compressed, embedded-v4); malformed input yields
`invalid` (here `none`), never an exception.  The concrete parser lives in the
missing `tags.go` (via `inet.af/netaddr`). -/

/-- Typed IP address: four IPv4 bytes, or eight 16-bit IPv6 groups. -/
inductive IPAddr where
  | v4 (a b c d : Nat) : IPAddr
  | v6 (g0 g1 g2 g3 g4 g5 g6 g7 : Nat) : IPAddr
deriving DecidableEq, Repr

/-- Decimal value of a digit character. -/
def decDigitVal (c : Char) : Nat := c.toNat - 48

/-- Accumulate decimal digits into a number. -/
def natOfDigits (cs : List Char) : Nat :=
  cs.foldl (fun acc c => acc * 10 + decDigitVal c) 0

/-- Parse one dotted-quad piece: 1-3 decimal digits, value at most 255, no
leading zero (canonical form). -/
def parseByte (cs : List Char) : Option Nat :=
  if cs.isEmpty ∨ ¬ (cs.all Char.isDigit) = true ∨ 3 < cs.length ∨
      (1 < cs.length ∧ cs.head? = some '0') ∨ 255 < natOfDigits cs
  then none else some (natOfDigits cs)

/-- Parse a canonical IPv4 dotted quad. -/
def parseIPv4Chars (cs : List Char) : Option IPAddr :=
  match splitChar '.' cs with
  | [p0, p1, p2, p3] =>
    match parseByte p0, parseByte p1, parseByte p2, parseByte p3 with
    | some a, some b, some c, some d => some (IPAddr.v4 a b c d)
    | _, _, _, _ => none
  | _ => none

/-- Hexadecimal value of a character, if it is a hex digit. -/
def hexVal (c : Char) : Option Nat :=
  if c.isDigit then some (c.toNat - 48)
  else if 97 ≤ c.toNat ∧ c.toNat ≤ 102 then some (c.toNat - 87)
  else if 65 ≤ c.toNat ∧ c.toNat ≤ 70 then some (c.toNat - 55)
  else none

/-- Accumulate hex digits into a number, failing on a non-hex character. -/
def natOfHexDigitsAux (acc : Nat) : List Char → Option Nat
  | [] => some acc
  | c :: cs =>
    match hexVal c with
    | some d => natOfHexDigitsAux (acc * 16 + d) cs
    | none => none

/-- Value of a hex digit string. -/
def natOfHexDigits (cs : List Char) : Option Nat :=
  natOfHexDigitsAux 0 cs

/-- Parse one IPv6 group: 1-4 hex digits. -/
def parseHexGroup (cs : List Char) : Option Nat :=
  if cs.isEmpty then none
  else if 4 < cs.length then none
  else
    match natOfHexDigits cs with
    | some n => if n ≤ 65535 then some n else none
    | none => none

/-- Parse a list of colon-separated pieces as plain hex groups. -/
def parseHexGroups : List (List Char) → Option (List Nat)
  | [] => some []
  | p :: ps =>
    match parseHexGroup p, parseHexGroups ps with
    | some g, some r => some (g :: r)
    | _, _ => none

/-- Parse colon-separated pieces where the final piece may be an embedded
IPv4 dotted quad (contributing the last two groups). -/
def parseGroupsEmbedded : List (List Char) → Option (List Nat)
  | [] => some []
  | [p] =>
    match parseHexGroup p with
    | some g => some [g]
    | none =>
      match parseIPv4Chars p with
      | some (IPAddr.v4 a b c d) => some [a * 256 + b, c * 256 + d]
      | _ => none
  | p :: ps =>
    match parseHexGroup p, parseGroupsEmbedded ps with
    | some g, some r => some (g :: r)
    | _, _ => none

/-- Locate the first `::` in a character list, returning the characters
before and after it. -/
def breakDoubleColon : List Char → Option (List Char × List Char)
  | [] => none
  | x :: xs =>
    match xs with
    | [] => none
    | y :: ys =>
      if x = ':' ∧ y = ':' then some ([], ys)
      else
        match breakDoubleColon xs with
        | some (l, r) => some (x :: l, r)
        | none => none

/-- Groups of one side of a `::`; the empty side contributes no groups. -/
def parseSideGroups (embedded : Bool) (cs : List Char) : Option (List Nat) :=
  if cs.isEmpty then some []
  else if embedded then parseGroupsEmbedded (splitChar ':' cs)
  else parseHexGroups (splitChar ':' cs)

/-- Assemble eight groups into an address, validating the 16-bit group
invariant established by parsing. -/
def groupsToIPv6 (gs : List Nat) : Option IPAddr :=
  match gs with
  | [g0, g1, g2, g3, g4, g5, g6, g7] =>
    if gs.all (fun g => g ≤ 65535) then some (IPAddr.v6 g0 g1 g2 g3 g4 g5 g6 g7)
    else none
  | _ => none

/-- Parse an IPv6 literal: either eight groups, or a `::`-compressed form
whose two sides together have at most seven groups; an embedded dotted quad
may stand in final position. -/
def parseIPv6Chars (cs : List Char) : Option IPAddr :=
  match breakDoubleColon cs with
  | none =>
    (match parseGroupsEmbedded (splitChar ':' cs) with
     | some gs => if gs.length = 8 then groupsToIPv6 gs else none
     | none => none)
  | some (l, r) =>
    match parseHexGroups (if l.isEmpty then [] else splitChar ':' l),
          parseSideGroups true r with
    | some lg, some rg =>
      if lg.length + rg.length ≤ 7 then
        groupsToIPv6 (lg ++ List.replicate (8 - lg.length - rg.length) 0 ++ rg)
      else none
    | _, _ => none

/-- Parse one textual address: IPv6 when a colon occurs, IPv4 otherwise. -/
def parseIPChars (cs : List Char) : Option IPAddr :=
  if cs.contains ':' then parseIPv6Chars cs else parseIPv4Chars cs

/-- Modelled from the spec: `parse(text) → IPAddress | invalid` for the
parser of the missing `tags.go`. -/
def parseIP (s : String) : Option IPAddr :=
  parseIPChars s.data

/-! ## Address classification -/

/-- Modelled from the spec: the IPv4 side of `isGlobal`, excluding
`0.0.0.0/8, 10/8, 100.64/10, 127/8, 169.254/16, 172.16/12, 192.0.0/24,
192.0.2/24, 192.88.99/24, 192.168/16, 198.18/15, 198.51.100/24,
203.0.113/24, 224/4, 240/4` (implementation missing from the sources). -/
def isGlobalV4 (a b c _d : Nat) : Bool :=
  !(a == 0 || a == 10 ||
    (a == 100 && decide (64 ≤ b) && decide (b ≤ 127)) ||
    a == 127 ||
    (a == 169 && b == 254) ||
    (a == 172 && decide (16 ≤ b) && decide (b ≤ 31)) ||
    (a == 192 && b == 0 && c == 0) ||
    (a == 192 && b == 0 && c == 2) ||
    (a == 192 && b == 88 && c == 99) ||
    (a == 192 && b == 168) ||
    (a == 198 && (b == 18 || b == 19)) ||
    (a == 198 && b == 51 && c == 100) ||
    (a == 203 && b == 0 && c == 113) ||
    (decide (224 ≤ a) && decide (a ≤ 239)) ||
    decide (240 ≤ a))

/-- Modelled from the spec: the IPv6 side of `isGlobal`, excluding `::1, ::,
fc00::/7, fe80::/10, ff00::/8, 2001:db8::/32`; an IPv4-mapped address
(`::ffff:a.b.c.d`) is classified by its embedded IPv4 address. -/
def isGlobalV6 (g0 g1 g2 g3 g4 g5 g6 g7 : Nat) : Bool :=
  if g0 == 0 && g1 == 0 && g2 == 0 && g3 == 0 && g4 == 0 && g5 == 65535 then
    isGlobalV4 (g6 / 256) (g6 % 256) (g7 / 256) (g7 % 256)
  else
    !((g0 == 0 && g1 == 0 && g2 == 0 && g3 == 0 && g4 == 0 && g5 == 0 &&
       g6 == 0 && (g7 == 0 || g7 == 1)) ||
      (g0 / 256 == 252 || g0 / 256 == 253) ||
      (g0 / 256 == 254 && (g0 % 256) / 64 == 2) ||
      g0 / 256 == 255 ||
      (g0 == 8193 && g1 == 3512))

/-- Modelled from the spec: `isGlobal(addr) → bool`, true iff the address is
unicast and outside every private/reserved/loopback/link-local/multicast
range (implementation missing from the sources). -/
def isGlobal : IPAddr → Bool
  | IPAddr.v4 a b c d => isGlobalV4 a b c d
  | IPAddr.v6 g0 g1 g2 g3 g4 g5 g6 g7 => isGlobalV6 g0 g1 g2 g3 g4 g5 g6 g7

/-! ## Spec-side range characterization of globality

These definitions restate the claim's exclusion list independently, as
numeric CIDR intervals, to be compared with the byte-test classifier. -/

/-- Numeric (32-bit) value of an IPv4 address. -/
def v4Num (a b c d : Nat) : Nat := ((a * 256 + b) * 256 + c) * 256 + d

/-- Membership of a numeric address in a CIDR block of the given base
address and size. -/
def inBlock (x base size : Nat) : Prop := base ≤ x ∧ x < base + size

/-- The excluded IPv4 ranges of the claim, as numeric intervals. -/
def excludedV4 (x : Nat) : Prop :=
  inBlock x (v4Num 0 0 0 0) (2 ^ 24) ∨
  inBlock x (v4Num 10 0 0 0) (2 ^ 24) ∨
  inBlock x (v4Num 100 64 0 0) (2 ^ 22) ∨
  inBlock x (v4Num 127 0 0 0) (2 ^ 24) ∨
  inBlock x (v4Num 169 254 0 0) (2 ^ 16) ∨
  inBlock x (v4Num 172 16 0 0) (2 ^ 20) ∨
  inBlock x (v4Num 192 0 0 0) (2 ^ 8) ∨
  inBlock x (v4Num 192 0 2 0) (2 ^ 8) ∨
  inBlock x (v4Num 192 88 99 0) (2 ^ 8) ∨
  inBlock x (v4Num 192 168 0 0) (2 ^ 16) ∨
  inBlock x (v4Num 198 18 0 0) (2 ^ 17) ∨
  inBlock x (v4Num 198 51 100 0) (2 ^ 8) ∨
  inBlock x (v4Num 203 0 113 0) (2 ^ 8) ∨
  inBlock x (v4Num 224 0 0 0) (2 ^ 28) ∨
  inBlock x (v4Num 240 0 0 0) (2 ^ 28)

/-- Numeric (128-bit) value of an IPv6 address. -/
def v6Num (g0 g1 g2 g3 g4 g5 g6 g7 : Nat) : Nat :=
  ((((((g0 * 65536 + g1) * 65536 + g2) * 65536 + g3) * 65536 + g4) * 65536 +
    g5) * 65536 + g6) * 65536 + g7

/-- The excluded IPv6 ranges of the claim, as numeric intervals: `::`, `::1`,
`fc00::/7`, `fe80::/10`, `ff00::/8`, `2001:db8::/32`. -/
def excludedV6 (x : Nat) : Prop :=
  (x = 0 ∨ x = 1) ∨
  inBlock x (64512 * 2 ^ 112) (2 ^ 121) ∨
  inBlock x (65152 * 2 ^ 112) (2 ^ 118) ∨
  inBlock x (65280 * 2 ^ 112) (2 ^ 120) ∨
  inBlock x ((8193 * 65536 + 3512) * 2 ^ 96) (2 ^ 96)

/-- The claim's characterization of a global address: outside every excluded
range, with an IPv4-mapped IPv6 address classified by the numeric value of
its embedded IPv4 address. -/
def GlobalRangeSpec : IPAddr → Prop
  | IPAddr.v4 a b c d => ¬ excludedV4 (v4Num a b c d)
  | IPAddr.v6 g0 g1 g2 g3 g4 g5 g6 g7 =>
    if g0 = 0 ∧ g1 = 0 ∧ g2 = 0 ∧ g3 = 0 ∧ g4 = 0 ∧ g5 = 65535 then
      ¬ excludedV4 (g6 * 65536 + g7)
    else ¬ excludedV6 (v6Num g0 g1 g2 g3 g4 g5 g6 g7)

/-- Well-formedness invariant established by the parser: IPv4 bytes are
8-bit, IPv6 groups are 16-bit. -/
def wellFormed : IPAddr → Prop
  | IPAddr.v4 a b c d => a < 256 ∧ b < 256 ∧ c < 256 ∧ d < 256
  | IPAddr.v6 g0 g1 g2 g3 g4 g5 g6 g7 =>
    g0 < 65536 ∧ g1 < 65536 ∧ g2 < 65536 ∧ g3 < 65536 ∧
    g4 < 65536 ∧ g5 < 65536 ∧ g6 < 65536 ∧ g7 < 65536

/-! ## Header normalization -/

/-- Join strings with commas, like Go's `strings.Join(vs, ",")`. -/
def joinComma : List String → String
  | [] => ""
  | [v] => v
  | v :: vs => v ++ "," ++ joinComma vs

/-- Normalization of a single raw header entry: lowercase the name, drop the
`cookie` header, join repeated values in encounter order with `,`. -/
def normalizeEntry (p : String × List String) : Option (String × String) :=
  if lowerStr p.1 = "cookie" then none
  else some (lowerStr p.1, joinComma p.2)

/-- Modelled from the spec: `NormalizeHTTPHeaders` turns the raw header
multimap into a case-insensitive (lowercased) name-to-string mapping, joining
repeated occurrences with `,` and always dropping `cookie`; when nothing
remains the result is the absent state `none`, indistinguishable from a nil
input (implementation missing from the sources, behaviour fixed by
`TestNormalizeHTTPHeaders`). -/
def NormalizeHTTPHeaders (headers : List (String × List String)) :
    Option (List (String × String)) :=
  let normalized := headers.filterMap normalizeEntry
  if normalized.isEmpty then none else some normalized

/-! ## Candidate extraction and resolution -/

/-- First value bound to `n` in an association list. -/
def lookupVal : List (String × String) → String → Option String
  | [], _ => none
  | p :: ps, n => if p.1 = n then some p.2 else lookupVal ps n

/-- Modelled from the spec: the default priority list of proxy IP headers.
Exact membership is a configuration concern of the missing `tags.go`; the
tests require at least `x-forwarded-for` before `forwarded-for`. -/
def defaultIPHeaders : List String :=
  ["x-forwarded-for", "x-real-ip", "x-client-ip", "x-forwarded",
   "x-cluster-client-ip", "forwarded-for", "forwarded", "via",
   "true-client-ip"]

/-- Active priority list: an operator-configured non-empty override name
exclusively replaces the default list; the empty string means "no
override". -/
def activeIPHeaders (clientIPHeader : String) : List String :=
  if clientIPHeader = "" then defaultIPHeaders else [lowerStr clientIPHeader]

/-- One processed candidate token: trim whitespace, strip an optional
trailing port. -/
def processCandidate (cs : List Char) : List Char :=
  stripPortChars (trimChars cs)

/-- Ordered candidate tokens of one header value: comma-split, trimmed,
port-stripped. -/
def candidates (v : String) : List String :=
  (splitChar ',' v.data).map (fun cs => String.mk (processCandidate cs))

/-- A candidate's contribution: its parsed address when it parses and is
global, nothing otherwise. -/
def globalIPOf (c : String) : Option IPAddr :=
  Option.bind (parseIP c) (fun ip => if isGlobal ip then some ip else none)

/-- Left-to-right scan for the first parsing-and-global candidate. -/
def firstGlobal : List String → Option IPAddr
  | [] => none
  | c :: cs =>
    match globalIPOf c with
    | some ip => some ip
    | none => firstGlobal cs

/-- Modelled from the spec: a header's best candidate is the first candidate,
scanned left to right, that parses successfully and is global. -/
def bestCandidate (v : String) : Option IPAddr :=
  firstGlobal (candidates v)

/-- Best candidate contributed by one named header of a header set. -/
def headerBest (hs : List (String × String)) (n : String) : Option IPAddr :=
  Option.bind (lookupVal hs n) bestCandidate

/-- Whether a header name contributes a best candidate in a header set. -/
def contributesTo (hs : List (String × String)) (n : String) : Bool :=
  (headerBest hs n).isSome

/-- Contributing headers, in priority-list order, with their best
candidates. -/
def contributors (hs : List (String × String)) :
    List String → List (String × IPAddr)
  | [] => []
  | n :: ns =>
    match headerBest hs n with
    | none => contributors hs ns
    | some ip => (n, ip) :: contributors hs ns

/-- Headers of the priority list that are present in the header set, in
priority-list order, with their values: a header participates in resolution
merely by being present, whatever its value. -/
def presentIPHeaders (hs : List (String × String)) :
    List String → List (String × String)
  | [] => []
  | n :: ns =>
    match lookupVal hs n with
    | none => presentIPHeaders hs ns
    | some v => (n, v) :: presentIPHeaders hs ns

/-- Outcome of client-IP resolution. -/
inductive ResolutionOutcome where
  | Resolved (ip : IPAddr) : ResolutionOutcome
  | Ambiguous (names : List String) : ResolutionOutcome
  | Unresolved : ResolutionOutcome
deriving DecidableEq, Repr

/-- Modelled from the spec and the behaviour pinned by `TestIPHeaders`
(`tags_test.go`, resolver missing from the sources): resolution counts the
priority-list headers *present* in the request — the multi-header test cases
fix that a present header suppresses resolution even when its value is
private or unparseable.  No present header is Unresolved; exactly one
present header is Resolved with its best candidate when one exists and
Unresolved otherwise; several present headers are Ambiguous with the present
names in canonical priority order. -/
def resolveIP (clientIPHeader : String) (hs : List (String × String)) :
    ResolutionOutcome :=
  match presentIPHeaders hs (activeIPHeaders clientIPHeader) with
  | [] => ResolutionOutcome.Unresolved
  | [(_, v)] =>
    match bestCandidate v with
    | some ip => ResolutionOutcome.Resolved ip
    | none => ResolutionOutcome.Unresolved
  | l => ResolutionOutcome.Ambiguous (l.map Prod.fst)

/-! ## Tag writer -/

/-- Render an IPv4 address in dotted-quad form and an IPv6 address as eight
uncompressed hexadecimal groups.  No claim depends on the exact textual
form; only the tag keys matter. -/
def ipString : IPAddr → String
  | IPAddr.v4 a b c d =>
    toString a ++ "." ++ toString b ++ "." ++ toString c ++ "." ++ toString d
  | IPAddr.v6 g0 g1 g2 g3 g4 g5 g6 g7 =>
    String.intercalate ":" ([g0, g1, g2, g3, g4, g5, g6, g7].map toString)

/-- Modelled from the spec: the canonical client-IP tag key
(`ext.HTTPClientIP`). -/
def httpClientIPKey : String := "http.client_ip"

/-- Modelled from the spec: the "multiple IP headers" tag key. -/
def multipleIPHeadersKey : String := "_dd.multiple-ip-headers"

/-- Modelled from the spec: the request-headers tag namespace
(`ext.HTTPRequestHeaders`). -/
def requestHeadersNS : String := "http.request.headers"

/-- Modelled from the spec and the behaviour pinned by `TestIPHeaders`:
Resolved sets only the client-IP tag; Ambiguous sets the multiple-IP-headers
tag to the comma-joined names of the present priority-list headers
(contributors or not) plus one raw-value tag per present priority-list
header; Unresolved writes nothing. -/
def ipTags (clientIPHeader : String) (hs : List (String × String)) :
    List (String × String) :=
  match resolveIP clientIPHeader hs with
  | ResolutionOutcome.Resolved ip => [(httpClientIPKey, ipString ip)]
  | ResolutionOutcome.Ambiguous names =>
    (multipleIPHeadersKey, joinComma names) ::
      (presentIPHeaders hs (activeIPHeaders clientIPHeader)).map
        (fun p => (requestHeadersNS ++ "." ++ p.1, p.2))
  | ResolutionOutcome.Unresolved => []

/-- Normalized header set of a raw request, with the absent state read as the
empty set. -/
def normalizedOf (raw : List (String × List String)) :
    List (String × String) :=
  (NormalizeHTTPHeaders raw).getD []

/-- Full pipeline outcome for a raw request. -/
def resolveRequest (clientIPHeader : String)
    (raw : List (String × List String)) : ResolutionOutcome :=
  resolveIP clientIPHeader (normalizedOf raw)

/-- Modelled from the spec: `SetIPTags` — normalize the raw headers, resolve,
and write the outcome's tags (implementation missing from the sources,
behaviour fixed by `TestIPHeaders`). -/
def setIPTags (clientIPHeader : String)
    (raw : List (String × List String)) : List (String × String) :=
  ipTags clientIPHeader (normalizedOf raw)

/-! ## Helper lemmas -/

theorem presentIPHeaders_singleton (hs : List (String × String)) (n : String) :
    presentIPHeaders hs [n] = [] ∨
      ∃ v, presentIPHeaders hs [n] = [(n, v)] := by
  cases hv : lookupVal hs n with
  | none => exact Or.inl (by simp [presentIPHeaders, hv])
  | some v => exact Or.inr ⟨v, by simp [presentIPHeaders, hv]⟩

theorem globalIPOf_eq_some {c : String} {ip : IPAddr}
    (h : globalIPOf c = some ip) :
    parseIP c = some ip ∧ isGlobal ip = true := by
  unfold globalIPOf at h
  cases hp : parseIP c with
  | none => simp [hp] at h
  | some ip' =>
    simp only [hp, Option.some_bind] at h
    by_cases hg : isGlobal ip' = true
    · rw [if_pos hg] at h
      cases h
      exact ⟨rfl, hg⟩
    · rw [if_neg hg] at h
      exact absurd h (by simp)

theorem firstGlobal_eq_some {l : List String} {ip : IPAddr}
    (h : firstGlobal l = some ip) :
    ∃ c ∈ l, globalIPOf c = some ip := by
  induction l with
  | nil => exact absurd h (by simp [firstGlobal])
  | cons c cs ih =>
    unfold firstGlobal at h
    cases hc : globalIPOf c with
    | some ip' =>
      simp only [hc] at h
      cases h
      exact ⟨c, by simp, hc⟩
    | none =>
      simp only [hc] at h
      obtain ⟨c', hc', hg⟩ := ih h
      exact ⟨c', by simp [hc'], hg⟩

theorem presentIPHeaders_mem {hs : List (String × String)} {ns : List String}
    {n v : String} (h : (n, v) ∈ presentIPHeaders hs ns) :
    n ∈ ns ∧ lookupVal hs n = some v := by
  induction ns with
  | nil => exact absurd h (by simp [presentIPHeaders])
  | cons m ms ih =>
    unfold presentIPHeaders at h
    cases hv : lookupVal hs m with
    | none =>
      simp only [hv] at h
      obtain ⟨hmem, hrest⟩ := ih h
      exact ⟨by simp [hmem], hrest⟩
    | some v' =>
      simp only [hv] at h
      rcases List.mem_cons.mp h with heq | hmem
      · have h1 : n = m := congrArg Prod.fst heq
        have h2 : v = v' := congrArg Prod.snd heq
        subst h1
        subst h2
        exact ⟨by simp, hv⟩
      · obtain ⟨hm, hrest⟩ := ih hmem
        exact ⟨by simp [hm], hrest⟩

theorem resolveIP_eq_resolved {cfg : String} {hs : List (String × String)}
    {ip : IPAddr} (h : resolveIP cfg hs = ResolutionOutcome.Resolved ip) :
    ∃ n v, presentIPHeaders hs (activeIPHeaders cfg) = [(n, v)] ∧
      bestCandidate v = some ip := by
  unfold resolveIP at h
  rcases hc : presentIPHeaders hs (activeIPHeaders cfg) with _ | ⟨⟨n, v⟩, rest⟩
  · simp only [hc] at h
    cases h
  · rcases rest with _ | ⟨p, ps⟩
    · simp only [hc] at h
      cases hb : bestCandidate v with
      | some ip' =>
        simp only [hb, ResolutionOutcome.Resolved.injEq] at h
        exact ⟨n, v, rfl, by rw [hb, h]⟩
      | none =>
        simp only [hb] at h
        cases h
    · simp only [hc] at h
      cases h

theorem bestCandidate_parse {v : String} {ip : IPAddr}
    (h : bestCandidate v = some ip) :
    isGlobal ip = true ∧
      ∃ tok, tok ∈ splitChar ',' v.data ∧
        parseIP (String.mk (processCandidate tok)) = some ip := by
  obtain ⟨c, hc, hg⟩ := firstGlobal_eq_some h
  obtain ⟨hparse, hglob⟩ := globalIPOf_eq_some hg
  obtain ⟨tok, htok, hctok⟩ := List.mem_map.mp hc
  exact ⟨hglob, tok, htok, by rw [hctok]; exact hparse⟩

theorem lookupVal_eq_none_iff (hs : List (String × String)) (n : String) :
    lookupVal hs n = none ↔ n ∉ hs.map Prod.fst := by
  induction hs with
  | nil => simp [lookupVal]
  | cons p ps ih =>
    unfold lookupVal
    by_cases hp : p.1 = n
    · simp [hp]
    · rw [if_neg hp, ih]
      constructor
      · intro hni
        simp only [List.map_cons, List.mem_cons]
        rintro (h1 | h2)
        · exact hp h1.symm
        · exact hni h2
      · intro hni hmem
        exact hni (by simp [List.map_cons, List.mem_cons, hmem])

theorem lookupVal_mem {hs : List (String × String)} {n v : String}
    (h : lookupVal hs n = some v) : (n, v) ∈ hs := by
  induction hs with
  | nil => simp [lookupVal] at h
  | cons p ps ih =>
    unfold lookupVal at h
    by_cases hp : p.1 = n
    · rw [if_pos hp] at h
      have h2 : p.2 = v := Option.some.inj h
      have h3 : p = (n, v) := Prod.ext hp.symm.symm h2
      rw [← h3]
      exact List.mem_cons_self p ps
    · rw [if_neg hp] at h
      exact List.mem_cons_of_mem p (ih h)

theorem mem_lookupVal {hs : List (String × String)}
    (hnd : (hs.map Prod.fst).Nodup) {n v : String} (h : (n, v) ∈ hs) :
    lookupVal hs n = some v := by
  induction hs with
  | nil => simp at h
  | cons p ps ih =>
    rw [List.map_cons, List.nodup_cons] at hnd
    rcases List.mem_cons.mp h with heq | hmem
    · unfold lookupVal
      rw [← heq]
      simp
    · have hne : p.1 ≠ n := by
        intro hcon
        apply hnd.1
        rw [hcon]
        exact List.mem_map.mpr ⟨(n, v), hmem, rfl⟩
      unfold lookupVal
      rw [if_neg hne]
      exact ih hnd.2 hmem

theorem lookupVal_perm {hs hs' : List (String × String)}
    (hnd : (hs.map Prod.fst).Nodup) (hperm : hs.Perm hs') (n : String) :
    lookupVal hs n = lookupVal hs' n := by
  have hnd' : (hs'.map Prod.fst).Nodup := ((hperm.map Prod.fst).nodup_iff).mp hnd
  cases hv : lookupVal hs n with
  | some v =>
    exact (mem_lookupVal hnd' (hperm.mem_iff.mp (lookupVal_mem hv))).symm
  | none =>
    have hno : n ∉ hs'.map Prod.fst := by
      intro hcon
      exact ((lookupVal_eq_none_iff hs n).mp hv)
        (((hperm.map Prod.fst).mem_iff).mpr hcon)
    exact ((lookupVal_eq_none_iff hs' n).mpr hno).symm

theorem lookupVal_head (k v : String) (rest : List (String × String)) :
    lookupVal ((k, v) :: rest) k = some v := by
  simp [lookupVal]

theorem lookupVal_cons_ne {k' k : String} (h : k' ≠ k) (v : String)
    (rest : List (String × String)) :
    lookupVal ((k', v) :: rest) k = lookupVal rest k := by
  simp [lookupVal, h]

theorem presentIPHeaders_congr {hs hs' : List (String × String)}
    (h : ∀ n, lookupVal hs n = lookupVal hs' n) :
    ∀ ns, presentIPHeaders hs ns = presentIPHeaders hs' ns := by
  intro ns
  induction ns with
  | nil => rfl
  | cons n ns' ih =>
    unfold presentIPHeaders
    rw [h n, ih]

theorem presentIPHeaders_map_fst (hs : List (String × String)) :
    ∀ ns : List String, (presentIPHeaders hs ns).map Prod.fst =
      ns.filter (fun n => (lookupVal hs n).isSome) := by
  intro ns
  induction ns with
  | nil => rfl
  | cons n ns' ih =>
    cases hv : lookupVal hs n with
    | none => simp [presentIPHeaders, List.filter_cons, hv, ih]
    | some v => simp [presentIPHeaders, List.filter_cons, hv, ih]

theorem contributors_length_le (hs : List (String × String)) :
    ∀ ns : List String,
      (contributors hs ns).length ≤ (presentIPHeaders hs ns).length := by
  intro ns
  induction ns with
  | nil => simp [contributors, presentIPHeaders]
  | cons n ns' ih =>
    cases hv : lookupVal hs n with
    | none =>
      simp only [contributors, presentIPHeaders, headerBest, hv,
        Option.none_bind]
      exact ih
    | some v =>
      cases hb : bestCandidate v with
      | none =>
        simp only [contributors, presentIPHeaders, headerBest, hv,
          Option.some_bind, hb, List.length_cons]
        omega
      | some ip =>
        simp only [contributors, presentIPHeaders, headerBest, hv,
          Option.some_bind, hb, List.length_cons]
        omega

theorem presentIPHeaders_keys_nodup (hs : List (String × String))
    {ns : List String} (hnd : ns.Nodup) :
    ((presentIPHeaders hs ns).map Prod.fst).Nodup := by
  rw [presentIPHeaders_map_fst]
  exact hnd.filter _

theorem resolveIP_ambiguous_of_len {cfg : String}
    {hs : List (String × String)}
    (h : 1 < (presentIPHeaders hs (activeIPHeaders cfg)).length) :
    resolveIP cfg hs = ResolutionOutcome.Ambiguous
      ((presentIPHeaders hs (activeIPHeaders cfg)).map Prod.fst) := by
  unfold resolveIP
  rcases hc : presentIPHeaders hs (activeIPHeaders cfg) with _ | ⟨p, rest⟩
  · rw [hc] at h
    simp at h
  · rcases rest with _ | ⟨q, rest2⟩
    · rw [hc] at h
      simp at h
    · rcases p with ⟨n, v⟩
      rfl

theorem ns_key_ne_multi (n : String) :
    requestHeadersNS ++ "." ++ n ≠ multipleIPHeadersKey := by
  intro h
  have h3 : (requestHeadersNS ++ "." ++ n).data.head? = some 'h' := by
    rw [String.data_append, String.data_append]
    rfl
  rw [h] at h3
  exact absurd h3 (by decide)

theorem ns_key_inj {m n : String}
    (h : requestHeadersNS ++ "." ++ m = requestHeadersNS ++ "." ++ n) :
    m = n := by
  have h2 := congrArg String.data h
  rw [String.data_append, String.data_append, String.data_append,
    String.data_append] at h2
  have h3 := List.append_cancel_left h2
  exact String.ext h3

theorem lookupVal_tagmap_none (hs : List (String × String)) (k : String)
    (h : ∀ p ∈ hs, requestHeadersNS ++ "." ++ p.1 ≠ k) :
    lookupVal
      (hs.map (fun p => (requestHeadersNS ++ "." ++ p.1, p.2))) k = none := by
  induction hs with
  | nil => rfl
  | cons p ps ih =>
    rw [List.map_cons]
    unfold lookupVal
    rw [if_neg (h p (List.mem_cons_self p ps))]
    exact ih (fun q hq => h q (List.mem_cons_of_mem p hq))

theorem lookupVal_tagmap_mem {hs : List (String × String)}
    (hnd : (hs.map Prod.fst).Nodup) {n v : String} (h : (n, v) ∈ hs) :
    lookupVal (hs.map (fun p => (requestHeadersNS ++ "." ++ p.1, p.2)))
      (requestHeadersNS ++ "." ++ n) = some v := by
  induction hs with
  | nil => simp at h
  | cons p ps ih =>
    rw [List.map_cons, List.nodup_cons] at hnd
    rw [List.map_cons]
    unfold lookupVal
    rcases List.mem_cons.mp h with heq | hmem
    · rw [← heq]
      simp
    · have hne : p.1 ≠ n := by
        intro hcon
        apply hnd.1
        rw [hcon]
        exact List.mem_map.mpr ⟨(n, v), hmem, rfl⟩
      rw [if_neg (fun hcon => hne (ns_key_inj hcon))]
      exact ih hnd.2 hmem

theorem parseByte_le {cs : List Char} {n : Nat} (h : parseByte cs = some n) :
    n ≤ 255 := by
  unfold parseByte at h
  split_ifs at h with h1
  push_neg at h1
  obtain rfl : natOfDigits cs = n := Option.some.inj h
  omega

theorem parseIPv4Chars_wf {cs : List Char} {ip : IPAddr}
    (h : parseIPv4Chars cs = some ip) : wellFormed ip := by
  unfold parseIPv4Chars at h
  split at h
  · split at h
    · cases h
      rename_i ha hb hc hd
      have h1 := parseByte_le ha
      have h2 := parseByte_le hb
      have h3 := parseByte_le hc
      have h4 := parseByte_le hd
      show _ < 256 ∧ _ < 256 ∧ _ < 256 ∧ _ < 256
      omega
    · cases h
  · cases h

theorem groupsToIPv6_wf {gs : List Nat} {ip : IPAddr}
    (h : groupsToIPv6 gs = some ip) : wellFormed ip := by
  unfold groupsToIPv6 at h
  split at h
  · split at h
    · cases h
      rename_i hall
      simp only [List.all_cons, List.all_nil, Bool.and_eq_true,
        decide_eq_true_eq] at hall
      show _ < 65536 ∧ _ < 65536 ∧ _ < 65536 ∧ _ < 65536 ∧
        _ < 65536 ∧ _ < 65536 ∧ _ < 65536 ∧ _ < 65536
      omega
    · cases h
  · cases h

theorem parseIPv6Chars_wf {cs : List Char} {ip : IPAddr}
    (h : parseIPv6Chars cs = some ip) : wellFormed ip := by
  unfold parseIPv6Chars at h
  split at h
  · split at h
    · split at h
      · exact groupsToIPv6_wf h
      · cases h
    · cases h
  · split at h
    · split at h
      · exact groupsToIPv6_wf h
      · cases h
    · cases h

theorem parseIP_wf {s : String} {ip : IPAddr} (h : parseIP s = some ip) :
    wellFormed ip := by
  unfold parseIP parseIPChars at h
  split at h
  · exact parseIPv6Chars_wf h
  · exact parseIPv4Chars_wf h

theorem inBlock_s8 {a b c d p : Nat} (ha : a < 256) (hb : b < 256)
    (hc : c < 256) (hd : d < 256) :
    inBlock (v4Num a b c d) (v4Num p 0 0 0) (2 ^ 24) ↔ a = p := by
  unfold inBlock v4Num
  omega

theorem inBlock_s16 {a b c d p q : Nat} (ha : a < 256) (hb : b < 256)
    (hc : c < 256) (hd : d < 256) (hq : q < 256) :
    inBlock (v4Num a b c d) (v4Num p q 0 0) (2 ^ 16) ↔ a = p ∧ b = q := by
  unfold inBlock v4Num
  omega

theorem inBlock_s24 {a b c d p q r : Nat} (ha : a < 256) (hb : b < 256)
    (hc : c < 256) (hd : d < 256) (hq : q < 256) (hr : r < 256) :
    inBlock (v4Num a b c d) (v4Num p q r 0) (2 ^ 8) ↔
      a = p ∧ b = q ∧ c = r := by
  unfold inBlock v4Num
  omega

theorem inBlock_s10 {a b c d : Nat} (ha : a < 256) (hb : b < 256)
    (hc : c < 256) (hd : d < 256) :
    inBlock (v4Num a b c d) (v4Num 100 64 0 0) (2 ^ 22) ↔
      a = 100 ∧ 64 ≤ b ∧ b ≤ 127 := by
  unfold inBlock v4Num
  omega

theorem inBlock_s12 {a b c d : Nat} (ha : a < 256) (hb : b < 256)
    (hc : c < 256) (hd : d < 256) :
    inBlock (v4Num a b c d) (v4Num 172 16 0 0) (2 ^ 20) ↔
      a = 172 ∧ 16 ≤ b ∧ b ≤ 31 := by
  unfold inBlock v4Num
  omega

theorem inBlock_s15 {a b c d : Nat} (ha : a < 256) (hb : b < 256)
    (hc : c < 256) (hd : d < 256) :
    inBlock (v4Num a b c d) (v4Num 198 18 0 0) (2 ^ 17) ↔
      a = 198 ∧ (b = 18 ∨ b = 19) := by
  unfold inBlock v4Num
  omega

theorem inBlock_s4mc {a b c d : Nat} (ha : a < 256) (hb : b < 256)
    (hc : c < 256) (hd : d < 256) :
    inBlock (v4Num a b c d) (v4Num 224 0 0 0) (2 ^ 28) ↔
      224 ≤ a ∧ a ≤ 239 := by
  unfold inBlock v4Num
  omega

theorem inBlock_s4hi {a b c d : Nat} (ha : a < 256) (hb : b < 256)
    (hc : c < 256) (hd : d < 256) :
    inBlock (v4Num a b c d) (v4Num 240 0 0 0) (2 ^ 28) ↔ 240 ≤ a := by
  unfold inBlock v4Num
  omega

theorem excludedV4_bytes {a b c d : Nat} (ha : a < 256) (hb : b < 256)
    (hc : c < 256) (hd : d < 256) :
    excludedV4 (v4Num a b c d) ↔
      (a = 0 ∨ a = 10 ∨ (a = 100 ∧ 64 ≤ b ∧ b ≤ 127) ∨ a = 127 ∨
       (a = 169 ∧ b = 254) ∨ (a = 172 ∧ 16 ≤ b ∧ b ≤ 31) ∨
       (a = 192 ∧ b = 0 ∧ c = 0) ∨ (a = 192 ∧ b = 0 ∧ c = 2) ∨
       (a = 192 ∧ b = 88 ∧ c = 99) ∨ (a = 192 ∧ b = 168) ∨
       (a = 198 ∧ (b = 18 ∨ b = 19)) ∨ (a = 198 ∧ b = 51 ∧ c = 100) ∨
       (a = 203 ∧ b = 0 ∧ c = 113) ∨ (224 ≤ a ∧ a ≤ 239) ∨ 240 ≤ a) := by
  unfold excludedV4
  rw [inBlock_s8 ha hb hc hd, inBlock_s8 ha hb hc hd, inBlock_s8 ha hb hc hd,
    inBlock_s10 ha hb hc hd,
    @inBlock_s16 a b c d 169 254 ha hb hc hd (by omega),
    @inBlock_s16 a b c d 192 168 ha hb hc hd (by omega),
    inBlock_s12 ha hb hc hd,
    @inBlock_s24 a b c d 192 0 0 ha hb hc hd (by omega) (by omega),
    @inBlock_s24 a b c d 192 0 2 ha hb hc hd (by omega) (by omega),
    @inBlock_s24 a b c d 192 88 99 ha hb hc hd (by omega) (by omega),
    @inBlock_s24 a b c d 198 51 100 ha hb hc hd (by omega) (by omega),
    @inBlock_s24 a b c d 203 0 113 ha hb hc hd (by omega) (by omega),
    inBlock_s15 ha hb hc hd,
    inBlock_s4mc ha hb hc hd, inBlock_s4hi ha hb hc hd]

theorem isGlobalV4_iff {a b c d : Nat} (ha : a < 256) (hb : b < 256)
    (hc : c < 256) (hd : d < 256) :
    isGlobalV4 a b c d = true ↔ ¬ excludedV4 (v4Num a b c d) := by
  rw [excludedV4_bytes ha hb hc hd]
  unfold isGlobalV4
  rw [Bool.not_eq_true', Bool.eq_false_iff]
  apply not_congr
  simp only [Bool.or_eq_true, Bool.and_eq_true, decide_eq_true_eq, beq_iff_eq,
    and_assoc, or_assoc]

theorem v6_zero_one {g0 g1 g2 g3 g4 g5 g6 g7 : Nat} :
    (v6Num g0 g1 g2 g3 g4 g5 g6 g7 = 0 ∨ v6Num g0 g1 g2 g3 g4 g5 g6 g7 = 1) ↔
      (g0 = 0 ∧ g1 = 0 ∧ g2 = 0 ∧ g3 = 0 ∧ g4 = 0 ∧ g5 = 0 ∧ g6 = 0 ∧
        (g7 = 0 ∨ g7 = 1)) := by
  unfold v6Num
  omega

theorem v6_fc {g0 g1 g2 g3 g4 g5 g6 g7 : Nat}
    (h1 : g1 < 65536) (h2 : g2 < 65536) (h3 : g3 < 65536) (h4 : g4 < 65536)
    (h5 : g5 < 65536) (h6 : g6 < 65536) (h7 : g7 < 65536) :
    inBlock (v6Num g0 g1 g2 g3 g4 g5 g6 g7) (64512 * 2 ^ 112) (2 ^ 121) ↔
      (g0 / 256 = 252 ∨ g0 / 256 = 253) := by
  unfold inBlock v6Num
  omega

theorem v6_fe80 {g0 g1 g2 g3 g4 g5 g6 g7 : Nat}
    (h1 : g1 < 65536) (h2 : g2 < 65536) (h3 : g3 < 65536) (h4 : g4 < 65536)
    (h5 : g5 < 65536) (h6 : g6 < 65536) (h7 : g7 < 65536) :
    inBlock (v6Num g0 g1 g2 g3 g4 g5 g6 g7) (65152 * 2 ^ 112) (2 ^ 118) ↔
      (g0 / 256 = 254 ∧ g0 % 256 / 64 = 2) := by
  unfold inBlock v6Num
  omega

theorem v6_ff {g0 g1 g2 g3 g4 g5 g6 g7 : Nat} (h0 : g0 < 65536)
    (h1 : g1 < 65536) (h2 : g2 < 65536) (h3 : g3 < 65536) (h4 : g4 < 65536)
    (h5 : g5 < 65536) (h6 : g6 < 65536) (h7 : g7 < 65536) :
    inBlock (v6Num g0 g1 g2 g3 g4 g5 g6 g7) (65280 * 2 ^ 112) (2 ^ 120) ↔
      g0 / 256 = 255 := by
  unfold inBlock v6Num
  omega

theorem v6_db8 {g0 g1 g2 g3 g4 g5 g6 g7 : Nat}
    (h1 : g1 < 65536) (h2 : g2 < 65536) (h3 : g3 < 65536) (h4 : g4 < 65536)
    (h5 : g5 < 65536) (h6 : g6 < 65536) (h7 : g7 < 65536) :
    inBlock (v6Num g0 g1 g2 g3 g4 g5 g6 g7) ((8193 * 65536 + 3512) * 2 ^ 96)
        (2 ^ 96) ↔
      (g0 = 8193 ∧ g1 = 3512) := by
  unfold inBlock v6Num
  omega

theorem excludedV6_groups {g0 g1 g2 g3 g4 g5 g6 g7 : Nat} (h0 : g0 < 65536)
    (h1 : g1 < 65536) (h2 : g2 < 65536) (h3 : g3 < 65536) (h4 : g4 < 65536)
    (h5 : g5 < 65536) (h6 : g6 < 65536) (h7 : g7 < 65536) :
    excludedV6 (v6Num g0 g1 g2 g3 g4 g5 g6 g7) ↔
      ((g0 = 0 ∧ g1 = 0 ∧ g2 = 0 ∧ g3 = 0 ∧ g4 = 0 ∧ g5 = 0 ∧ g6 = 0 ∧
          (g7 = 0 ∨ g7 = 1)) ∨
        (g0 / 256 = 252 ∨ g0 / 256 = 253) ∨
        (g0 / 256 = 254 ∧ g0 % 256 / 64 = 2) ∨
        g0 / 256 = 255 ∨
        (g0 = 8193 ∧ g1 = 3512)) := by
  unfold excludedV6
  rw [v6_zero_one, v6_fc h1 h2 h3 h4 h5 h6 h7, v6_fe80 h1 h2 h3 h4 h5 h6 h7,
    v6_ff h0 h1 h2 h3 h4 h5 h6 h7, v6_db8 h1 h2 h3 h4 h5 h6 h7]

theorem mappedCond_iff (g0 g1 g2 g3 g4 g5 : Nat) :
    (g0 == 0 && g1 == 0 && g2 == 0 && g3 == 0 && g4 == 0 &&
      g5 == 65535) = true ↔
      (g0 = 0 ∧ g1 = 0 ∧ g2 = 0 ∧ g3 = 0 ∧ g4 = 0 ∧ g5 = 65535) := by
  simp [Bool.and_eq_true, beq_iff_eq, and_assoc]

theorem isGlobalV6_iff {g0 g1 g2 g3 g4 g5 g6 g7 : Nat}
    (h0 : g0 < 65536) (h1 : g1 < 65536) (h2 : g2 < 65536) (h3 : g3 < 65536)
    (h4 : g4 < 65536) (h5 : g5 < 65536) (h6 : g6 < 65536) (h7 : g7 < 65536) :
    isGlobalV6 g0 g1 g2 g3 g4 g5 g6 g7 = true ↔
      GlobalRangeSpec (IPAddr.v6 g0 g1 g2 g3 g4 g5 g6 g7) := by
  have hGR : GlobalRangeSpec (IPAddr.v6 g0 g1 g2 g3 g4 g5 g6 g7) =
      (if g0 = 0 ∧ g1 = 0 ∧ g2 = 0 ∧ g3 = 0 ∧ g4 = 0 ∧ g5 = 65535 then
        ¬ excludedV4 (g6 * 65536 + g7)
      else ¬ excludedV6 (v6Num g0 g1 g2 g3 g4 g5 g6 g7)) := rfl
  rw [hGR]
  unfold isGlobalV6
  by_cases hm : g0 = 0 ∧ g1 = 0 ∧ g2 = 0 ∧ g3 = 0 ∧ g4 = 0 ∧ g5 = 65535
  · rw [if_pos ((mappedCond_iff g0 g1 g2 g3 g4 g5).mpr hm), if_pos hm]
    have hiff := @isGlobalV4_iff (g6 / 256) (g6 % 256) (g7 / 256) (g7 % 256)
      (by omega) (by omega) (by omega) (by omega)
    rw [hiff]
    have hnum : v4Num (g6 / 256) (g6 % 256) (g7 / 256) (g7 % 256) =
        g6 * 65536 + g7 := by
      unfold v4Num
      omega
    rw [hnum]
  · rw [if_neg (fun hcon => hm ((mappedCond_iff g0 g1 g2 g3 g4 g5).mp hcon)),
      if_neg hm]
    rw [excludedV6_groups h0 h1 h2 h3 h4 h5 h6 h7]
    rw [Bool.not_eq_true', Bool.eq_false_iff]
    apply not_congr
    simp only [Bool.or_eq_true, Bool.and_eq_true, decide_eq_true_eq,
      beq_iff_eq, and_assoc, or_assoc]

theorem ns_key_ne_client (n : String) :
    requestHeadersNS ++ "." ++ n ≠ httpClientIPKey := by
  intro h
  have hlen := congrArg String.length h
  rw [String.length_append, String.length_append] at hlen
  have h1 : requestHeadersNS.length = 20 := by decide
  have h2 : String.length "." = 1 := by decide
  have h3 : httpClientIPKey.length = 14 := by decide
  omega

/-! ## Claims -/

/-- C2 (counterexample): with x-forwarded-for and forwarded-for both
carrying global addresses and x-real-ip a private one, more than one header
yields a best candidate, yet the multiple-IP-headers tag lists the present
priority-list names — including the non-contributing x-real-ip — rather than
the contributing names, and the present custom-header of the full header set
receives no per-header tag. -/
theorem ambiguous_contributors_counterexample :
    1 < (contributors
      [("x-forwarded-for", "8.8.8.8"), ("x-real-ip", "10.0.0.1"),
       ("forwarded-for", "9.9.9.9"), ("custom-header", "zz")]
      defaultIPHeaders).length ∧
    lookupVal
        (ipTags ""
          [("x-forwarded-for", "8.8.8.8"), ("x-real-ip", "10.0.0.1"),
           ("forwarded-for", "9.9.9.9"), ("custom-header", "zz")])
        multipleIPHeadersKey ≠
      some (joinComma (defaultIPHeaders.filter (fun n => contributesTo
        [("x-forwarded-for", "8.8.8.8"), ("x-real-ip", "10.0.0.1"),
         ("forwarded-for", "9.9.9.9"), ("custom-header", "zz")] n))) ∧
    lookupVal
        (ipTags ""
          [("x-forwarded-for", "8.8.8.8"), ("x-real-ip", "10.0.0.1"),
           ("forwarded-for", "9.9.9.9"), ("custom-header", "zz")])
        (requestHeadersNS ++ "." ++ "custom-header") = none := by
  decide

/-- C2 (amended): when more than one header of the default priority list
yields a best candidate the outcome is Ambiguous: no client-IP tag is set,
the multiple-IP-headers tag holds the names of the present priority-list
headers — contributors or not — sorted by canonical priority order and
comma-joined, invariant under reordering the header set, and every present
priority-list header receives a per-header raw-value tag under the
request-headers namespace plus `.` plus its lowercased name. -/
theorem ambiguous_presence_tags :
    ∀ hs : List (String × String), (hs.map Prod.fst).Nodup →
      1 < (contributors hs defaultIPHeaders).length →
      resolveIP "" hs = ResolutionOutcome.Ambiguous
        (defaultIPHeaders.filter (fun n => (lookupVal hs n).isSome)) ∧
      lookupVal (ipTags "" hs) httpClientIPKey = none ∧
      lookupVal (ipTags "" hs) multipleIPHeadersKey =
        some (joinComma
          (defaultIPHeaders.filter (fun n => (lookupVal hs n).isSome))) ∧
      (∀ p ∈ presentIPHeaders hs defaultIPHeaders,
        lookupVal (ipTags "" hs) (requestHeadersNS ++ "." ++ p.1) =
          some p.2) ∧
      (∀ hs', hs.Perm hs' →
        resolveIP "" hs' = resolveIP "" hs ∧
        lookupVal (ipTags "" hs') multipleIPHeadersKey =
          lookupVal (ipTags "" hs) multipleIPHeadersKey) := by
  intro hs hnd hlen
  have hact : activeIPHeaders "" = defaultIPHeaders := rfl
  have hplen : 1 < (presentIPHeaders hs defaultIPHeaders).length :=
    lt_of_lt_of_le hlen (contributors_length_le hs defaultIPHeaders)
  have hres0 : resolveIP "" hs = ResolutionOutcome.Ambiguous
      ((presentIPHeaders hs defaultIPHeaders).map Prod.fst) := by
    have h1 := @resolveIP_ambiguous_of_len "" hs (by rw [hact]; exact hplen)
    rw [hact] at h1
    exact h1
  have hres : resolveIP "" hs = ResolutionOutcome.Ambiguous
      (defaultIPHeaders.filter (fun n => (lookupVal hs n).isSome)) := by
    rw [hres0, presentIPHeaders_map_fst]
  have htags : ipTags "" hs =
      (multipleIPHeadersKey,
        joinComma (defaultIPHeaders.filter
          (fun n => (lookupVal hs n).isSome))) ::
        (presentIPHeaders hs defaultIPHeaders).map
          (fun p => (requestHeadersNS ++ "." ++ p.1, p.2)) := by
    simp [ipTags, hres, hact]
  refine ⟨hres, ?_, ?_, ?_, ?_⟩
  · rw [htags, lookupVal_cons_ne (by decide)]
    exact lookupVal_tagmap_none (presentIPHeaders hs defaultIPHeaders)
      httpClientIPKey (fun p _ => ns_key_ne_client p.1)
  · rw [htags, lookupVal_head]
  · rintro ⟨n, v⟩ hp
    rw [htags, lookupVal_cons_ne (fun hcon => ns_key_ne_multi n hcon.symm)]
    exact lookupVal_tagmap_mem
      (presentIPHeaders_keys_nodup hs (by decide)) hp
  · intro hs' hperm
    have hlk := lookupVal_perm hnd hperm
    have hres' : resolveIP "" hs' = resolveIP "" hs := by
      unfold resolveIP
      rw [← presentIPHeaders_congr hlk (activeIPHeaders "")]
    refine ⟨hres', ?_⟩
    have htags' : ipTags "" hs' =
        (multipleIPHeadersKey,
          joinComma (defaultIPHeaders.filter
            (fun n => (lookupVal hs n).isSome))) ::
          (presentIPHeaders hs' defaultIPHeaders).map
            (fun p => (requestHeadersNS ++ "." ++ p.1, p.2)) := by
      simp [ipTags, hres', hres, hact]
    rw [htags', htags, lookupVal_head, lookupVal_head]

theorem ambiguous_presence_tags_witness :
    resolveIP ""
        [("forwarded-for", "9.9.9.9"), ("x-forwarded-for", "8.8.8.8")] =
      ResolutionOutcome.Ambiguous
        (defaultIPHeaders.filter (fun n => (lookupVal
          [("forwarded-for", "9.9.9.9"), ("x-forwarded-for", "8.8.8.8")]
          n).isSome)) ∧
    lookupVal
      (ipTags "" [("forwarded-for", "9.9.9.9"), ("x-forwarded-for", "8.8.8.8")])
      httpClientIPKey = none ∧
    lookupVal
      (ipTags "" [("forwarded-for", "9.9.9.9"), ("x-forwarded-for", "8.8.8.8")])
      multipleIPHeadersKey =
      some (joinComma (defaultIPHeaders.filter (fun n => (lookupVal
        [("forwarded-for", "9.9.9.9"), ("x-forwarded-for", "8.8.8.8")]
        n).isSome))) ∧
    (∀ p ∈ presentIPHeaders
        [("forwarded-for", "9.9.9.9"), ("x-forwarded-for", "8.8.8.8")]
        defaultIPHeaders,
      lookupVal
        (ipTags ""
          [("forwarded-for", "9.9.9.9"), ("x-forwarded-for", "8.8.8.8")])
        (requestHeadersNS ++ "." ++ p.1) = some p.2) ∧
    (∀ hs',
      ([("forwarded-for", "9.9.9.9"), ("x-forwarded-for", "8.8.8.8")] :
        List (String × String)).Perm hs' →
      resolveIP "" hs' = resolveIP ""
        [("forwarded-for", "9.9.9.9"), ("x-forwarded-for", "8.8.8.8")] ∧
      lookupVal (ipTags "" hs') multipleIPHeadersKey =
        lookupVal
          (ipTags ""
            [("forwarded-for", "9.9.9.9"), ("x-forwarded-for", "8.8.8.8")])
          multipleIPHeadersKey) :=
  ambiguous_presence_tags
    [("forwarded-for", "9.9.9.9"), ("x-forwarded-for", "8.8.8.8")]
    (by decide) (by decide)

/-- C1: whenever resolution produces a Resolved outcome the returned address
is classified global and equals, after whitespace trimming and optional
trailing-port stripping, some candidate token obtained by comma-splitting one
of the normalized header values; no address is fabricated. -/
theorem resolved_ip_global_and_from_candidates :
    ∀ cfg hs ip, resolveIP cfg hs = ResolutionOutcome.Resolved ip →
      isGlobal ip = true ∧
      ∃ n v tok, lookupVal hs n = some v ∧ tok ∈ splitChar ',' v.data ∧
        parseIP (String.mk (processCandidate tok)) = some ip := by
  intro cfg hs ip h
  obtain ⟨n, v, hc, hb⟩ := resolveIP_eq_resolved h
  have hmem : (n, v) ∈ presentIPHeaders hs (activeIPHeaders cfg) := by
    rw [hc]
    simp
  obtain ⟨-, hv⟩ := presentIPHeaders_mem hmem
  obtain ⟨hglob, tok, htok, hparse⟩ := bestCandidate_parse hb
  exact ⟨hglob, n, v, tok, hv, htok, hparse⟩

theorem splitChar_ne_nil (c : Char) (l : List Char) : splitChar c l ≠ [] := by
  cases l with
  | nil => simp [splitChar]
  | cons x xs =>
    simp only [splitChar]
    by_cases hx : x = c
    · simp [hx]
    · simp only [if_neg hx]
      cases h : splitChar c xs with
      | nil => simp
      | cons hd tl => simp

theorem splitChar_append (c : Char) (xs ys : List Char) :
    splitChar c (xs ++ c :: ys) = splitChar c xs ++ splitChar c ys := by
  induction xs with
  | nil => simp [splitChar]
  | cons x xs' ih =>
    rw [List.cons_append]
    simp only [splitChar]
    by_cases hx : x = c
    · rw [if_pos hx, if_pos hx, ih]
      simp
    · rw [if_neg hx, if_neg hx, ih]
      cases h : splitChar c xs' with
      | nil => exact absurd h (splitChar_ne_nil c xs')
      | cons hd tl => simp

theorem candidates_append (pre glob : String) :
    candidates (pre ++ "," ++ glob) = candidates pre ++ candidates glob := by
  unfold candidates
  rw [String.data_append, String.data_append,
    show ("," : String).data = [','] from rfl, List.append_assoc,
    show ([','] ++ glob.data : List Char) = ',' :: glob.data from rfl,
    splitChar_append, List.map_append]

theorem firstGlobal_append_none {l1 : List String} (l2 : List String)
    (h : firstGlobal l1 = none) :
    firstGlobal (l1 ++ l2) = firstGlobal l2 := by
  induction l1 with
  | nil => rfl
  | cons a as ih =>
    rw [List.cons_append]
    have hstep : firstGlobal (a :: (as ++ l2)) =
        match globalIPOf a with
        | some ip => some ip
        | none => firstGlobal (as ++ l2) := rfl
    have hstep2 : firstGlobal (a :: as) =
        match globalIPOf a with
        | some ip => some ip
        | none => firstGlobal as := rfl
    rw [hstep2] at h
    rw [hstep]
    cases ha : globalIPOf a with
    | some ip => simp [ha] at h
    | none =>
      simp only [ha] at h ⊢
      exact ih h

theorem firstGlobal_iff (l : List String) (ip : IPAddr) :
    firstGlobal l = some ip ↔
      ∃ l1 c l2, l = l1 ++ c :: l2 ∧ (∀ x ∈ l1, globalIPOf x = none) ∧
        globalIPOf c = some ip := by
  induction l with
  | nil =>
    constructor
    · intro h
      exact absurd h (by simp [firstGlobal])
    · rintro ⟨l1, c, l2, heq, -, -⟩
      exact absurd heq (by simp)
  | cons a as ih =>
    constructor
    · intro h
      unfold firstGlobal at h
      cases ha : globalIPOf a with
      | some ip' =>
        simp only [ha] at h
        cases h
        exact ⟨[], a, as, rfl, by simp, ha⟩
      | none =>
        simp only [ha] at h
        obtain ⟨l1, c, l2, heq, hnone, hc⟩ := ih.mp h
        refine ⟨a :: l1, c, l2, by rw [heq]; rfl, ?_, hc⟩
        intro x hx
        rcases List.mem_cons.mp hx with hx | hx
        · rw [hx]
          exact ha
        · exact hnone x hx
    · rintro ⟨l1, c, l2, heq, hnone, hc⟩
      cases l1 with
      | nil =>
        simp only [List.nil_append] at heq
        injection heq with h1 h2
        subst h1
        unfold firstGlobal
        simp [hc]
      | cons e l1' =>
        injection heq with h1 h2
        subst h1
        unfold firstGlobal
        have ha : globalIPOf a = none := hnone a (by simp)
        simp only [ha]
        exact ih.mpr ⟨l1', c, l2, h2, fun x hx => hnone x (by simp [hx]), hc⟩

theorem presentIPHeaders_single_xff (V : String) :
    presentIPHeaders [("x-forwarded-for", V)] defaultIPHeaders =
      [("x-forwarded-for", V)] := by
  simp [presentIPHeaders, defaultIPHeaders, lookupVal]

theorem resolved_ip_global_and_from_candidates_witness :
    isGlobal (IPAddr.v4 8 8 8 8) = true ∧
    ∃ n v tok, lookupVal [("x-forwarded-for", "10.0.0.1, 8.8.8.8")] n = some v ∧
      tok ∈ splitChar ',' v.data ∧
      parseIP (String.mk (processCandidate tok)) = some (IPAddr.v4 8 8 8 8) :=
  resolved_ip_global_and_from_candidates ""
    [("x-forwarded-for", "10.0.0.1, 8.8.8.8")] (IPAddr.v4 8 8 8 8) (by decide)

/-- C4: when a single override header name is configured, only that header is
consulted (the outcome depends only on its value), an absent override header
gives Unresolved with no tags regardless of other headers, and override mode
never yields Ambiguous. -/
theorem override_mode_exclusive :
    ∀ cfg : String, cfg ≠ "" →
      (∀ hs hs' : List (String × String),
          lookupVal hs (lowerStr cfg) = lookupVal hs' (lowerStr cfg) →
          resolveIP cfg hs = resolveIP cfg hs') ∧
      (∀ hs : List (String × String), lookupVal hs (lowerStr cfg) = none →
          resolveIP cfg hs = ResolutionOutcome.Unresolved ∧
          ipTags cfg hs = []) ∧
      (∀ hs ns, resolveIP cfg hs ≠ ResolutionOutcome.Ambiguous ns) := by
  intro cfg hcfg
  have hact : activeIPHeaders cfg = [lowerStr cfg] := by
    simp [activeIPHeaders, hcfg]
  refine ⟨?_, ?_, ?_⟩
  · intro hs hs' hlook
    simp only [resolveIP, hact, presentIPHeaders, hlook]
  · intro hs hnone
    have hr : resolveIP cfg hs = ResolutionOutcome.Unresolved := by
      simp only [resolveIP, hact, presentIPHeaders, hnone]
    exact ⟨hr, by simp [ipTags, hr]⟩
  · intro hs ns
    rcases presentIPHeaders_singleton hs (lowerStr cfg) with hc | ⟨v, hc⟩
    · simp [resolveIP, hact, hc]
    · cases hb : bestCandidate v with
      | some ip => simp [resolveIP, hact, hc, hb]
      | none => simp [resolveIP, hact, hc, hb]

theorem override_mode_exclusive_witness :
    resolveIP "custom-header" [("x-forwarded-for", "8.8.8.8")] =
      ResolutionOutcome.Unresolved ∧
    ipTags "custom-header" [("x-forwarded-for", "8.8.8.8")] = [] :=
  (override_mode_exclusive "custom-header" (by decide)).2.1
    [("x-forwarded-for", "8.8.8.8")] (by decide)

/-- C6: malformed candidates (double dots, bad hex groups) parse to the
invalid value `none` rather than raising, and resolution is total with only
the three ResolutionOutcome variants visible to the caller. -/
theorem malformed_candidates_recovered :
    parseIP "127..0.0.1" = none ∧
    parseIP "2001:0db8:2001:zzzz::" = none ∧
    ∀ cfg hs, (∃ ip, resolveIP cfg hs = ResolutionOutcome.Resolved ip) ∨
      (∃ ns, resolveIP cfg hs = ResolutionOutcome.Ambiguous ns) ∨
      resolveIP cfg hs = ResolutionOutcome.Unresolved := by
  refine ⟨by decide, by decide, ?_⟩
  intro cfg hs
  cases h : resolveIP cfg hs with
  | Resolved ip => exact Or.inl ⟨ip, rfl⟩
  | Ambiguous ns => exact Or.inr (Or.inl ⟨ns, rfl⟩)
  | Unresolved => exact Or.inr (Or.inr rfl)

/-- C8 (counterexample): two present priority-list headers carrying only
private addresses yield no best candidate at all, yet the outcome is not
Unresolved and tags are written — presence, not contribution, decides
ambiguity. -/
theorem no_contributors_counterexample :
    contributors
      [("x-forwarded-for", "10.0.0.1"), ("forwarded-for", "10.0.0.2")]
      (activeIPHeaders "") = [] ∧
    ¬ (resolveIP ""
        [("x-forwarded-for", "10.0.0.1"), ("forwarded-for", "10.0.0.2")] =
          ResolutionOutcome.Unresolved ∧
       ipTags ""
        [("x-forwarded-for", "10.0.0.1"), ("forwarded-for", "10.0.0.2")] =
          []) := by
  decide

/-- C8 (amended): when no priority-list header is present, or exactly one is
present and none of its candidates is a valid global address, the outcome is
Unresolved and the tag writer writes nothing at all; a raw header set that
normalizes to the absent state likewise produces the tags of the empty
set. -/
theorem unresolved_writes_nothing :
    ∀ cfg hs,
      (presentIPHeaders hs (activeIPHeaders cfg) = [] →
        resolveIP cfg hs = ResolutionOutcome.Unresolved ∧
        ipTags cfg hs = []) ∧
      (∀ n v, presentIPHeaders hs (activeIPHeaders cfg) = [(n, v)] →
        bestCandidate v = none →
        resolveIP cfg hs = ResolutionOutcome.Unresolved ∧
        ipTags cfg hs = []) ∧
      (∀ raw : List (String × List String), NormalizeHTTPHeaders raw = none →
        setIPTags cfg raw = ipTags cfg []) := by
  intro cfg hs
  refine ⟨?_, ?_, ?_⟩
  · intro h
    have hr : resolveIP cfg hs = ResolutionOutcome.Unresolved := by
      simp [resolveIP, h]
    exact ⟨hr, by simp [ipTags, hr]⟩
  · intro n v h hb
    have hr : resolveIP cfg hs = ResolutionOutcome.Unresolved := by
      simp [resolveIP, h, hb]
    exact ⟨hr, by simp [ipTags, hr]⟩
  · intro raw hraw
    simp [setIPTags, normalizedOf, hraw]

theorem unresolved_writes_nothing_witness :
    resolveIP "" [("x-forwarded-for", "10.0.0.1")] =
      ResolutionOutcome.Unresolved ∧
    ipTags "" [("x-forwarded-for", "10.0.0.1")] = [] :=
  (unresolved_writes_nothing "" [("x-forwarded-for", "10.0.0.1")]).2.1
    "x-forwarded-for" "10.0.0.1" (by decide) (by decide)

/-- C10: on a Resolved outcome the tag writer sets only the canonical
client-IP tag; the multiple-IP-headers tag is absent and no per-header
raw-value diagnostic tag is written. -/
theorem resolved_only_client_ip_tag :
    ∀ cfg hs ip, resolveIP cfg hs = ResolutionOutcome.Resolved ip →
      ipTags cfg hs = [(httpClientIPKey, ipString ip)] ∧
      lookupVal (ipTags cfg hs) multipleIPHeadersKey = none ∧
      (∀ n v, (requestHeadersNS ++ "." ++ n, v) ∈ ipTags cfg hs → False) := by
  intro cfg hs ip h
  have htags : ipTags cfg hs = [(httpClientIPKey, ipString ip)] := by
    simp [ipTags, h]
  refine ⟨htags, ?_, ?_⟩
  · rw [htags]
    simp [lookupVal, httpClientIPKey, multipleIPHeadersKey]
  · intro n v hmem
    rw [htags] at hmem
    simp only [List.mem_singleton, Prod.mk.injEq] at hmem
    have hlen := congrArg String.length hmem.1
    rw [String.length_append, String.length_append] at hlen
    have h1 : requestHeadersNS.length = 20 := by decide
    have h2 : String.length "." = 1 := by decide
    have h3 : httpClientIPKey.length = 14 := by decide
    omega

theorem resolved_only_client_ip_tag_witness :
    ipTags "" [("x-forwarded-for", "8.8.8.8")] =
      [(httpClientIPKey, ipString (IPAddr.v4 8 8 8 8))] ∧
    lookupVal (ipTags "" [("x-forwarded-for", "8.8.8.8")])
      multipleIPHeadersKey = none ∧
    (∀ n v, (requestHeadersNS ++ "." ++ n, v) ∈
        ipTags "" [("x-forwarded-for", "8.8.8.8")] → False) :=
  resolved_only_client_ip_tag "" [("x-forwarded-for", "8.8.8.8")]
    (IPAddr.v4 8 8 8 8) (by decide)

/-- C7: header normalization joins repeated occurrences of one name in
encounter order with `,`, drops the `cookie` header regardless of case, and
collapses an input with nothing left to the absent state `none`, the very
value a nil input yields. -/
theorem normalize_headers_spec :
    (∀ raw : List (String × List String),
        NormalizeHTTPHeaders raw = none ↔ ∀ p ∈ raw, lowerStr p.1 = "cookie") ∧
    (∀ raw (k : String) (vs : List String), (k, vs) ∈ raw →
        lowerStr k ≠ "cookie" →
        ∃ hs, NormalizeHTTPHeaders raw = some hs ∧
          (lowerStr k, joinComma vs) ∈ hs) ∧
    joinComma ["1.2.3.4", "5.6.7.8"] = "1.2.3.4,5.6.7.8" := by
  have hentry : ∀ p : String × List String,
      normalizeEntry p = none ↔ lowerStr p.1 = "cookie" := by
    intro p
    unfold normalizeEntry
    by_cases hp : lowerStr p.1 = "cookie"
    · simp [hp]
    · simp [hp]
  have hval : ∀ raw : List (String × List String),
      NormalizeHTTPHeaders raw =
        if (raw.filterMap normalizeEntry).isEmpty = true then none
        else some (raw.filterMap normalizeEntry) := fun _ => rfl
  refine ⟨?_, ?_, by decide⟩
  · intro raw
    rw [hval]
    by_cases hemp : (raw.filterMap normalizeEntry).isEmpty = true
    · rw [if_pos hemp]
      have hnil : raw.filterMap normalizeEntry = [] := List.isEmpty_iff.mp hemp
      constructor
      · intro _ p hp
        exact (hentry p).mp (List.filterMap_eq_nil_iff.mp hnil p hp)
      · intro _
        rfl
    · rw [if_neg hemp]
      have hnil : raw.filterMap normalizeEntry ≠ [] :=
        fun hcon => hemp (List.isEmpty_iff.mpr hcon)
      constructor
      · intro hcon
        exact absurd hcon (by simp)
      · intro hall
        exact absurd (List.filterMap_eq_nil_iff.mpr
          (fun p hp => (hentry p).mpr (hall p hp))) hnil
  · intro raw k vs hmem hk
    have hsome : normalizeEntry (k, vs) = some (lowerStr k, joinComma vs) := by
      unfold normalizeEntry
      simp [hk]
    have hmem2 : (lowerStr k, joinComma vs) ∈ raw.filterMap normalizeEntry :=
      List.mem_filterMap.mpr ⟨(k, vs), hmem, hsome⟩
    have hne : ¬ (raw.filterMap normalizeEntry).isEmpty = true := by
      intro hcon
      rw [List.isEmpty_iff.mp hcon] at hmem2
      exact absurd hmem2 (by simp)
    exact ⟨raw.filterMap normalizeEntry, by rw [hval, if_neg hne], hmem2⟩

theorem normalize_headers_spec_witness :
    (∃ hs, NormalizeHTTPHeaders
        [("cookie", ["x"]), ("x-forwarded-for", ["1.2.3.4", "5.6.7.8"])] =
          some hs ∧
      (lowerStr "x-forwarded-for", joinComma ["1.2.3.4", "5.6.7.8"]) ∈ hs) ∧
    NormalizeHTTPHeaders [("cookie", ["not-collected"])] = none :=
  ⟨normalize_headers_spec.2.1
      [("cookie", ["x"]), ("x-forwarded-for", ["1.2.3.4", "5.6.7.8"])]
      "x-forwarded-for" ["1.2.3.4", "5.6.7.8"] (by decide) (by decide),
   (normalize_headers_spec.1 [("cookie", ["not-collected"])]).mpr (by decide)⟩

theorem filterMap_normalize_congr :
    ∀ raw raw' : List (String × List String),
      raw.map (fun p => (lowerStr p.1, p.2)) =
        raw'.map (fun p => (lowerStr p.1, p.2)) →
      raw.filterMap normalizeEntry = raw'.filterMap normalizeEntry := by
  intro raw
  induction raw with
  | nil =>
    intro raw' h
    cases raw' with
    | nil => rfl
    | cons q qs => simp at h
  | cons p ps ih =>
    intro raw' h
    cases raw' with
    | nil => simp at h
    | cons q qs =>
      simp only [List.map_cons, List.cons.injEq, Prod.mk.injEq] at h
      have hentry : normalizeEntry p = normalizeEntry q := by
        unfold normalizeEntry
        rw [h.1.1, h.1.2]
      rw [List.filterMap_cons, List.filterMap_cons, hentry, ih qs h.2]

/-- C9: resolution is invariant under changing the letter case of header
names in the request: raw header lists whose name-lowercased forms agree
produce the same outcome and the same tags. -/
theorem resolution_case_insensitive :
    ∀ cfg (raw raw' : List (String × List String)),
      raw.map (fun p => (lowerStr p.1, p.2)) =
        raw'.map (fun p => (lowerStr p.1, p.2)) →
      resolveRequest cfg raw = resolveRequest cfg raw' ∧
      setIPTags cfg raw = setIPTags cfg raw' := by
  intro cfg raw raw' h
  have hnorm : NormalizeHTTPHeaders raw = NormalizeHTTPHeaders raw' := by
    unfold NormalizeHTTPHeaders
    rw [filterMap_normalize_congr raw raw' h]
  constructor
  · unfold resolveRequest normalizedOf
    rw [hnorm]
  · unfold setIPTags normalizedOf
    rw [hnorm]

theorem resolution_case_insensitive_witness :
    resolveRequest "" [("X-fOrWaRdEd-FoR", ["8.8.8.8"])] =
      resolveRequest "" [("x-forwarded-for", ["8.8.8.8"])] ∧
    setIPTags "" [("X-fOrWaRdEd-FoR", ["8.8.8.8"])] =
      setIPTags "" [("x-forwarded-for", ["8.8.8.8"])] :=
  resolution_case_insensitive "" [("X-fOrWaRdEd-FoR", ["8.8.8.8"])]
    [("x-forwarded-for", ["8.8.8.8"])] (by decide)

/-- C5: for every parsed IP address, isGlobal holds iff the address is
outside every excluded IPv4 and IPv6 range of the claim (expressed as
numeric CIDR intervals), an IPv4-mapped IPv6 address being classified by its
embedded IPv4 value; and a parse failure never contributes a global
address. -/
theorem isGlobal_iff_range_characterization :
    (∀ s ip, parseIP s = some ip →
      (isGlobal ip = true ↔ GlobalRangeSpec ip)) ∧
    (∀ s, parseIP s = none → globalIPOf s = none) := by
  constructor
  · intro s ip hp
    have hwf := parseIP_wf hp
    cases ip with
    | v4 a b c d =>
      have hwf' : a < 256 ∧ b < 256 ∧ c < 256 ∧ d < 256 := hwf
      exact isGlobalV4_iff hwf'.1 hwf'.2.1 hwf'.2.2.1 hwf'.2.2.2
    | v6 g0 g1 g2 g3 g4 g5 g6 g7 =>
      have hwf' : g0 < 65536 ∧ g1 < 65536 ∧ g2 < 65536 ∧ g3 < 65536 ∧
          g4 < 65536 ∧ g5 < 65536 ∧ g6 < 65536 ∧ g7 < 65536 := hwf
      exact isGlobalV6_iff hwf'.1 hwf'.2.1 hwf'.2.2.1 hwf'.2.2.2.1
        hwf'.2.2.2.2.1 hwf'.2.2.2.2.2.1 hwf'.2.2.2.2.2.2.1
        hwf'.2.2.2.2.2.2.2
  · intro s hp
    unfold globalIPOf
    rw [hp]
    rfl

theorem isGlobal_iff_range_characterization_witness :
    (isGlobal (IPAddr.v4 8 8 8 8) = true ↔
      GlobalRangeSpec (IPAddr.v4 8 8 8 8)) ∧
    globalIPOf "127..0.0.1" = none :=
  ⟨isGlobal_iff_range_characterization.1 "8.8.8.8" (IPAddr.v4 8 8 8 8)
      (by decide),
   isGlobal_iff_range_characterization.2 "127..0.0.1" (by decide)⟩

/-- C3: a header's best candidate is the first comma-separated candidate,
scanned left to right, that parses and is global — all earlier candidates
yield nothing — and a single header whose earlier candidates are all
private or malformed still resolves to the global candidate that follows
them. -/
theorem best_candidate_first_global :
    (∀ v ip, bestCandidate v = some ip ↔
        ∃ l1 c l2, candidates v = l1 ++ c :: l2 ∧
          (∀ x ∈ l1, globalIPOf x = none) ∧ globalIPOf c = some ip) ∧
    (∀ pre glob ip, bestCandidate pre = none → bestCandidate glob = some ip →
        resolveIP "" [("x-forwarded-for", pre ++ "," ++ glob)] =
          ResolutionOutcome.Resolved ip) := by
  constructor
  · intro v ip
    exact firstGlobal_iff (candidates v) ip
  · intro pre glob ip hpre hglob
    have hbest : bestCandidate (pre ++ "," ++ glob) = some ip := by
      unfold bestCandidate
      rw [candidates_append, firstGlobal_append_none _ hpre]
      exact hglob
    have hc := presentIPHeaders_single_xff (pre ++ "," ++ glob)
    simp [resolveIP, activeIPHeaders, hc, hbest]

theorem best_candidate_first_global_witness :
    resolveIP "" [("x-forwarded-for", "10.0.0.1" ++ "," ++ "8.8.8.8")] =
      ResolutionOutcome.Resolved (IPAddr.v4 8 8 8 8) ∧
    resolveIP "" [("x-forwarded-for", "127..0.0.1" ++ "," ++ " 8.8.8.8")] =
      ResolutionOutcome.Resolved (IPAddr.v4 8 8 8 8) :=
  ⟨best_candidate_first_global.2 "10.0.0.1" "8.8.8.8" (IPAddr.v4 8 8 8 8)
      (by decide) (by decide),
   best_candidate_first_global.2 "127..0.0.1" " 8.8.8.8" (IPAddr.v4 8 8 8 8)
      (by decide) (by decide)⟩

end Httpsec
